import Mathlib

/-
  Verification development for the Clio relation service
  (relation-service/src/models/relations.js) and its log rotation
  manager (lib/logRotation.js).

  The relations table is modelled as a list of rows; the SQL
  INSERT ... ON CONFLICT ... DO UPDATE statements are translated into
  explicit first-match update functions.  The process-local cache is an
  association list from string keys to cached data with a timestamp.
  Timestamps are naturals (milliseconds since the epoch).  Storage
  failures are modelled by an explicit failure flag; the filesystem seen
  by the log rotation manager is an association list from paths to file
  states, with an explicit parse outcome standing for JSON.parse.
-/

namespace Clio

/-- Time-to-live of cached relations data in milliseconds
(RELATIONS_CACHE_TTL = 30000 in relations.js). -/
def RELATIONS_CACHE_TTL : Nat := 30000

/-- Milliseconds in one day, used by the age-based prune
(INTERVAL one day in SQL). -/
def DAY_MS : Nat := 86400000

/-- The opaque metadata bag attached to a relation.  The upsert reads the
optional fields metadata.firstSeen and metadata.timestamp; everything
else is opaque payload. -/
structure Metadata where
  firstSeen : Option Nat
  timestamp : Option Nat
  payload : String
deriving DecidableEq

/-- A row of the relations table. -/
structure Relation where
  sourceType : String
  sourceValue : String
  targetType : String
  targetValue : String
  metadata : Metadata
  firstSeen : Nat
  lastSeen : Nat
  strength : Nat
  connectionCount : Nat
deriving DecidableEq

/-- The composite unique key
(source_type, source_value, target_type, target_value). -/
def Relation.key (r : Relation) : String × String × String × String :=
  (r.sourceType, r.sourceValue, r.targetType, r.targetValue)

/-- First row of the table carrying the given composite key (the unique
one, under the table's unique-key constraint). -/
def findByKey (k : String × String × String × String) (tbl : List Relation) :
    Option Relation :=
  tbl.find? fun r => r.key = k

/-- The observation timestamp supplied to an upsert:
metadata.timestamp || new Date(). -/
def suppliedLastSeen (now : Nat) (md : Metadata) : Nat :=
  md.timestamp.getD now

/-- The first-seen timestamp supplied to an upsert:
metadata.firstSeen || new Date(). -/
def suppliedFirstSeen (now : Nat) (md : Metadata) : Nat :=
  md.firstSeen.getD now

/-- Fresh row inserted by upsertRelation when the composite key is absent
(VALUES ... strength 1, connection_count 1). -/
def newRow (now : Nat) (sTy sVal tTy tVal : String) (md : Metadata) : Relation :=
  { sourceType := sTy, sourceValue := sVal, targetType := tTy, targetValue := tVal,
    metadata := md,
    firstSeen := suppliedFirstSeen now md,
    lastSeen := suppliedLastSeen now md,
    strength := 1,
    connectionCount := 1 }

/-- The ON CONFLICT DO UPDATE arm of upsertRelation: last_seen becomes the
larger of the stored and the supplied value, metadata is replaced
wholesale, strength and connection_count are incremented. -/
def conflictUpdate (now : Nat) (md : Metadata) (old : Relation) : Relation :=
  { old with
      lastSeen := if suppliedLastSeen now md > old.lastSeen
                  then suppliedLastSeen now md else old.lastSeen,
      metadata := md,
      strength := old.strength + 1,
      connectionCount := old.connectionCount + 1 }

/-- INSERT ... ON CONFLICT ... RETURNING * against the table: updates the
row with the matching composite key, or appends a fresh row.  Returns the
resulting row together with the new table. -/
def tableUpsert (now : Nat) (sTy sVal tTy tVal : String) (md : Metadata) :
    List Relation → Relation × List Relation
  | [] => (newRow now sTy sVal tTy tVal md, [newRow now sTy sVal tTy tVal md])
  | row :: rest =>
    if row.key = (sTy, sVal, tTy, tVal) then
      (conflictUpdate now md row, conflictUpdate now md row :: rest)
    else
      let p := tableUpsert now sTy sVal tTy tVal md rest
      (p.1, row :: p.2)

/-- One entry of the related list produced by formatRelations. -/
structure RelatedEntry where
  target : String
  type : String
  strength : Nat
  connectionCount : Nat
  firstSeen : Nat
  lastSeen : Nat
  metadata : Metadata
deriving DecidableEq

/-- One group of the output of formatRelations: a source value and its
related targets. -/
structure FormattedGroup where
  source : String
  type : String
  related : List RelatedEntry
deriving DecidableEq

/-- The related-entry view of one table row (formatRelations push). -/
def toRelated (r : Relation) : RelatedEntry :=
  { target := r.targetValue, type := r.targetType, strength := r.strength,
    connectionCount := r.connectionCount, firstSeen := r.firstSeen,
    lastSeen := r.lastSeen, metadata := r.metadata }

/-- One step of formatRelations: append the row to the group of its source
value, creating the group in first-appearance order when absent. -/
def addFormattedRow (acc : List FormattedGroup) (r : Relation) : List FormattedGroup :=
  if acc.any fun g => g.source = r.sourceValue then
    acc.map fun g =>
      if g.source = r.sourceValue then { g with related := g.related ++ [toRelated r] }
      else g
  else
    acc ++ [{ source := r.sourceValue, type := r.sourceType, related := [toRelated r] }]

/-- formatRelations: group rows by source value in order of first
appearance. -/
def formatRelations (rows : List Relation) : List FormattedGroup :=
  rows.foldl addFormattedRow []

/-- One entry of the relations cache: cached data plus the time it was
stored. -/
structure CacheEntry where
  data : List FormattedGroup
  timestamp : Nat
deriving DecidableEq

/-- The process-local relations cache, a map from string keys to entries
(relationsCache in relations.js). -/
abbrev Cache := List (String × CacheEntry)

/-- Lookup of a cache key (Map.get). -/
def cacheLookup (key : String) : Cache → Option CacheEntry
  | [] => none
  | (k, e) :: rest => if k = key then some e else cacheLookup key rest

/-- JavaScript String.prototype.startsWith, modelled on the character
list. -/
def jsStartsWith (s p : String) : Bool :=
  p.data.isPrefixOf s.data

/-- invalidateCache: delete every cache entry whose key starts with the
given relation type. -/
def invalidateCache (relationType : String) (c : Cache) : Cache :=
  c.filter fun kv => !(jsStartsWith kv.1 relationType)

/-- Map.set: replace the entry of an existing key in place, else append. -/
def cacheSet (key : String) (e : CacheEntry) : Cache → Cache
  | [] => [(key, e)]
  | (k, v) :: rest =>
    if k = key then (key, e) :: rest else (k, v) :: cacheSet key e rest

/-- getCachedData: return the cached data when the entry exists and is
younger than the TTL. -/
def getCachedData (now : Nat) (key : String) (c : Cache) : Option (List FormattedGroup) :=
  match cacheLookup key c with
  | some e => if now - e.timestamp < RELATIONS_CACHE_TTL then some e.data else none
  | none => none

/-- cacheData: store data under a key with the current time. -/
def cacheData (now : Nat) (key : String) (d : List FormattedGroup) (c : Cache) : Cache :=
  cacheSet key { data := d, timestamp := now } c

/-- The visible state of the relation store: the relations table and the
process-local cache. -/
structure ModelState where
  table : List Relation
  cache : Cache
deriving DecidableEq

/-- upsertRelation: invalidate the cache for both endpoint types, then run
the upsert query.  The dbFails flag models the storage query throwing;
in that case the error propagates, the table is untouched, and the cache
invalidation has already happened. -/
def upsertRelation (now : Nat) (sTy sVal tTy tVal : String) (md : Metadata)
    (dbFails : Bool) (s : ModelState) : Except Unit Relation × ModelState :=
  let cache1 := invalidateCache tTy (invalidateCache sTy s.cache)
  if dbFails then
    (Except.error (), { s with cache := cache1 })
  else
    let p := tableUpsert now sTy sVal tTy tVal md s.table
    (Except.ok p.1, { table := p.2, cache := cache1 })

/-- The observation timestamp of one upsert call, from its clock value and
metadata. -/
def obsTs (om : Nat × Metadata) : Nat :=
  suppliedLastSeen om.1 om.2

/-- The maximum over the supplied observation timestamps of a sequence of
upsert calls. -/
def maxObs (obs : List (Nat × Metadata)) : Nat :=
  (obs.map obsTs).foldl max 0

/-- A sequence of successful upsertRelation calls on the same composite
key, each with its own clock value and metadata. -/
def upsertSeq (sTy sVal tTy tVal : String) (obs : List (Nat × Metadata))
    (s : ModelState) : ModelState :=
  obs.foldl (fun acc om => (upsertRelation om.1 sTy sVal tTy tVal om.2 false acc).2) s

/-- One input row of batchUpsertRelations. -/
structure RelationInput where
  sourceType : String
  sourceValue : String
  targetType : String
  targetValue : String
  metadata : Metadata
deriving DecidableEq

/-- One client.query upsert inside the batch transaction.  On success it
returns the rows of the query result (always exactly the upserted row)
and the new table; the fails flag models the statement throwing. -/
def clientUpsert (now : Nat) (ri : RelationInput) (fails : Bool)
    (tbl : List Relation) : Except Unit (List Relation × List Relation) :=
  if fails then Except.error ()
  else
    let p := tableUpsert now ri.sourceType ri.sourceValue ri.targetType
      ri.targetValue ri.metadata tbl
    Except.ok ([p.1], p.2)

/-- The loop body of batchUpsertRelations inside BEGIN/COMMIT: upsert each
row in order, pushing the first returned row of every non-empty query
result; the first failing statement aborts the transaction. -/
def runBatch (now : Nat) :
    List RelationInput → List Bool → List Relation → List Relation →
      Except Unit (List Relation × List Relation)
  | [], _, tbl, results => Except.ok (results, tbl)
  | ri :: rest, fl, tbl, results =>
    match clientUpsert now ri (fl.headD false) tbl with
    | Except.error () => Except.error ()
    | Except.ok (rows, tbl') =>
      match rows with
      | [] => runBatch now rest fl.tail tbl' results
      | r :: _ => runBatch now rest fl.tail tbl' (results ++ [r])

/-- Append a string to a list when absent (the Set of types to
invalidate, in insertion order). -/
def addUnique (l : List String) (x : String) : List String :=
  if x ∈ l then l else l ++ [x]

/-- The distinct endpoint types of a batch, in insertion order
(typesToInvalidate). -/
def collectTypes (rels : List RelationInput) : List String :=
  rels.foldl (fun acc ri => addUnique (addUnique acc ri.sourceType) ri.targetType) []

/-- batchUpsertRelations: empty input is a no-op; otherwise run all
upserts in one transaction.  On any statement failure the transaction is
rolled back and the error propagates with the state unchanged; on
success the cache is invalidated once per distinct endpoint type, after
commit.  The fails list gives the failure flag of each row's statement. -/
def batchUpsertRelations (now : Nat) (rels : List RelationInput)
    (fails : List Bool) (s : ModelState) :
    Except Unit (List Relation) × ModelState :=
  if rels.length = 0 then (Except.ok [], s)
  else
    match runBatch now rels fails s.table [] with
    | Except.error () => (Except.error (), s)
    | Except.ok (results, tbl') =>
      (Except.ok results,
       { table := tbl',
         cache := (collectTypes rels).foldl (fun c t => invalidateCache t c) s.cache })

/-- The cache key of getRelations: type underscore limit. -/
def cacheKey (type : String) (limit : Nat) : String :=
  type ++ "_" ++ toString limit

/-- WHERE source_type = type OR target_type = type. -/
def matchesType (t : String) (r : Relation) : Bool :=
  r.sourceType = t || r.targetType = t

/-- The PARTITION BY expression of the ranked query: the value of the
other endpoint (source_value when the source side matches the type, else
target_value). -/
def partitionKey (t : String) (r : Relation) : String :=
  if r.sourceType = t then r.sourceValue else r.targetValue

/-- Insertion step of the stable sort by last_seen descending. -/
def insertByLastSeenDesc (r : Relation) : List Relation → List Relation
  | [] => [r]
  | x :: xs =>
    if x.lastSeen ≥ r.lastSeen then x :: insertByLastSeenDesc r xs
    else r :: x :: xs

/-- ORDER BY last_seen DESC (stable insertion sort). -/
def sortByLastSeenDesc (rows : List Relation) : List Relation :=
  rows.foldr insertByLastSeenDesc []

/-- Number of rows already kept for a partition key. -/
def countKey (k : String) : List (String × Nat) → Nat
  | [] => 0
  | (k2, n) :: rest => if k2 = k then n else countKey k rest

/-- The window filter row_num <= limit: walk the rows in ranked order and
keep at most limit rows per partition key. -/
def takePerKey (t : String) (limit : Nat) :
    List Relation → List (String × Nat) → List Relation
  | [], _ => []
  | r :: rs, counts =>
    let k := partitionKey t r
    let c := countKey k counts
    if c + 1 ≤ limit then r :: takePerKey t limit rs ((k, c + 1) :: counts)
    else takePerKey t limit rs counts

/-- The ranked_relations query of getRelations: rows touching the type,
ordered by last_seen descending, at most limit rows per partition key. -/
def rankedQuery (t : String) (limit : Nat) (tbl : List Relation) : List Relation :=
  takePerKey t limit (sortByLastSeenDesc (tbl.filter (matchesType t))) []

/-- getRelations: serve from the cache when the entry is younger than the
TTL, else compute from the table, store it in the cache and return it. -/
def getRelations (now : Nat) (type : String) (limit : Nat) (s : ModelState) :
    List FormattedGroup × ModelState :=
  match getCachedData now (cacheKey type limit) s.cache with
  | some d => (d, s)
  | none =>
    let fr := formatRelations (rankedQuery type limit s.table)
    (fr, { s with cache := cacheData now (cacheKey type limit) fr s.cache })

/-- WHERE source_type = fieldType AND source_value = oldValue. -/
def srcMatch (fieldType oldValue : String) (r : Relation) : Bool :=
  r.sourceType = fieldType && r.sourceValue = oldValue

/-- WHERE target_type = fieldType AND target_value = oldValue. -/
def tgtMatch (fieldType oldValue : String) (r : Relation) : Bool :=
  r.targetType = fieldType && r.targetValue = oldValue

/-- The two DELETE statements of updateFieldValue: drop every row whose
source side or target side carries the old value. -/
def deleteMatching (fieldType oldValue : String) (tbl : List Relation) :
    List Relation :=
  (tbl.filter fun r => !(srcMatch fieldType oldValue r)).filter
    fun r => !(tgtMatch fieldType oldValue r)

/-- A source-side row re-inserted by updateFieldValue: the source value
renamed, counters and first_seen preserved, last_seen set to now. -/
def renamedFromSource (now : Nat) (newValue : String) (r : Relation) : Relation :=
  { sourceType := r.sourceType, sourceValue := newValue,
    targetType := r.targetType, targetValue := r.targetValue,
    strength := r.strength, connectionCount := r.connectionCount,
    firstSeen := r.firstSeen, lastSeen := now, metadata := r.metadata }

/-- A target-side row re-inserted by updateFieldValue: the target value
renamed, counters and first_seen preserved, last_seen set to now. -/
def renamedFromTarget (now : Nat) (newValue : String) (r : Relation) : Relation :=
  { sourceType := r.sourceType, sourceValue := r.sourceValue,
    targetType := r.targetType, targetValue := newValue,
    strength := r.strength, connectionCount := r.connectionCount,
    firstSeen := r.firstSeen, lastSeen := now, metadata := r.metadata }

/-- The ON CONFLICT DO UPDATE arm of the re-insert statements of
updateFieldValue: last_seen from the inserted row, strength the GREATEST
of the two, connection_count incremented, metadata replaced. -/
def renameConflict (ins : Relation) (old : Relation) : Relation :=
  { old with
      lastSeen := ins.lastSeen,
      strength := max old.strength ins.strength,
      connectionCount := old.connectionCount + 1,
      metadata := ins.metadata }

/-- The re-insert statement of updateFieldValue: insert the renamed row,
merging with the first row carrying the same composite key when one
exists. -/
def renameInsert (ins : Relation) : List Relation → List Relation
  | [] => [ins]
  | row :: rest =>
    if row.key = ins.key then renameConflict ins row :: rest
    else row :: renameInsert ins rest

/-- updateFieldValue: rename a value across all edges of the given field
type.  No-op returning 0 when either value is falsy (the empty string in
this model) or the two are equal; otherwise invalidate the type's cache
entries and, in one transaction, read the matching rows, delete them and
re-insert them renamed.  Returns source-side count plus target-side
count. -/
def updateFieldValue (now : Nat) (fieldType oldValue newValue : String)
    (s : ModelState) : Nat × ModelState :=
  if oldValue = "" ∨ newValue = "" ∨ oldValue = newValue then (0, s)
  else
    let cache1 := invalidateCache fieldType s.cache
    let sourceRows := s.table.filter (srcMatch fieldType oldValue)
    let targetRows := s.table.filter (tgtMatch fieldType oldValue)
    let tbl2 := deleteMatching fieldType oldValue s.table
    let tbl3 := sourceRows.foldl
      (fun tbl r => renameInsert (renamedFromSource now newValue r) tbl) tbl2
    let tbl4 := targetRows.foldl
      (fun tbl r => renameInsert (renamedFromTarget now newValue r) tbl) tbl3
    (sourceRows.length + targetRows.length, { table := tbl4, cache := cache1 })

/-- deleteOldRelations: delete every row whose last_seen is older than
now minus maxAgeDays days, clear the whole cache, return the deleted
count. -/
def deleteOldRelations (now : Nat) (days : Nat) (s : ModelState) :
    Nat × ModelState :=
  let cutoff := now - days * DAY_MS
  let deleted := s.table.filter fun r => r.lastSeen < cutoff
  let kept := s.table.filter fun r => !(decide (r.lastSeen < cutoff))
  (deleted.length, { table := kept, cache := [] })

/-- The outcome of JSON.parse on the raw content of a log file, taken as
given data: a parse error, a non-array value, or an array with its entry
count. -/
inductive ParseOutcome
  | parseError (msg : String)
  | nonArray
  | array (entries : Nat)
deriving DecidableEq

/-- The state of one path of the filesystem seen by the log rotation
manager: unreadable (access or read throws) or a file with raw content
and its parse outcome. -/
inductive LogFile
  | unreadable
  | file (raw : String) (parsed : ParseOutcome)
deriving DecidableEq

/-- One structured event sent to the event logger. -/
structure SysEvent where
  name : String
  file : String
  backupPath : String
deriving DecidableEq

/-- The state the log rotation manager acts on: the filesystem (a map from
paths to file states, absent paths do not exist) and the emitted
events. -/
structure RotationState where
  fs : List (String × LogFile)
  events : List SysEvent
deriving DecidableEq

/-- Path lookup in the modelled filesystem. -/
def fsLookup (p : String) : List (String × LogFile) → Option LogFile
  | [] => none
  | (q, f) :: rest => if q = p then some f else fsLookup p rest

/-- fs.writeFile: replace the state of an existing path, else create it. -/
def fsWrite (p : String) (f : LogFile) :
    List (String × LogFile) → List (String × LogFile)
  | [] => [(p, f)]
  | (q, g) :: rest =>
    if q = p then (p, f) :: rest else (q, g) :: fsWrite p f rest

/-- path.join(this.dataDir, fileName). -/
def logFilePath (dataDir fileName : String) : String :=
  dataDir ++ "/" ++ fileName

/-- The backup path of a corrupted log file, stamped with the failure
time. -/
def corruptedBackupPath (filePath : String) (now : Nat) : String :=
  filePath ++ ".corrupted." ++ toString now

/-- checkLogFile: a missing or unreadable file does not need rotation; a
file whose content fails to parse is backed up to a time-stamped sibling
path, a corruption event is emitted, and rotation is reported; non-array
content reports rotation; an array reports rotation exactly when its
length reaches maxLogsPerFile. -/
def checkLogFile (now : Nat) (dataDir : String) (maxLogsPerFile : Nat)
    (fileName : String) (st : RotationState) : Bool × RotationState :=
  let filePath := logFilePath dataDir fileName
  match fsLookup filePath st.fs with
  | none => (false, st)
  | some LogFile.unreadable => (false, st)
  | some (LogFile.file raw parsed) =>
    match parsed with
    | ParseOutcome.parseError msg =>
      let backupPath := corruptedBackupPath filePath now
      (true,
       { fs := fsWrite backupPath (LogFile.file raw (ParseOutcome.parseError msg)) st.fs,
         events := st.events ++
           [{ name := "log_file_corrupted", file := fileName, backupPath := backupPath }] })
    | ParseOutcome.nonArray => (true, st)
    | ParseOutcome.array n => (decide (n ≥ maxLogsPerFile), st)

/-- Whether a parse outcome is a parse-level problem: a parse error or a
parsed value that is not a list. -/
def isParseProblem : ParseOutcome → Bool
  | ParseOutcome.parseError _ => true
  | ParseOutcome.nonArray => true
  | ParseOutcome.array _ => false

/-- The conflict-update arm keeps the composite key of the stored row. -/
theorem key_conflictUpdate (now : Nat) (md : Metadata) (old : Relation) :
    (conflictUpdate now md old).key = old.key := rfl

/-- The SQL CASE comparison of last_seen computes the maximum. -/
theorem ite_gt_eq_max (a b : Nat) : (if a > b then a else b) = max b a := by
  split <;> omega

/-- The seed of a maximum fold is a lower bound of the result. -/
theorem le_foldl_max (l : List Nat) : ∀ a b : Nat, a ≤ b → a ≤ l.foldl max b := by
  induction l with
  | nil => intro a b h; simpa using h
  | cons x xs ih =>
    intro a b h
    exact ih a (max b x) (Nat.le_trans h (Nat.le_max_left b x))

/-- After an upsert, the row found under the upserted key is the fresh row
when the key was absent, else the conflict update of the stored row. -/
theorem findByKey_tableUpsert (now : Nat) (sTy sVal tTy tVal : String)
    (md : Metadata) (tbl : List Relation) :
    findByKey (sTy, sVal, tTy, tVal) (tableUpsert now sTy sVal tTy tVal md tbl).2 =
      some (match findByKey (sTy, sVal, tTy, tVal) tbl with
            | none => newRow now sTy sVal tTy tVal md
            | some old => conflictUpdate now md old) := by
  induction tbl with
  | nil => simp [findByKey, tableUpsert, newRow, Relation.key]
  | cons row rest ih =>
    by_cases h : row.key = (sTy, sVal, tTy, tVal)
    · simp [findByKey, tableUpsert, h, List.find?, key_conflictUpdate]
    · simp only [tableUpsert, if_neg h, findByKey, List.find?] at ih ⊢
      simp [h, ih]

/-- Unfolding of one step of a same-key upsert sequence. -/
theorem upsertSeq_cons (sTy sVal tTy tVal : String) (om : Nat × Metadata)
    (rest : List (Nat × Metadata)) (s : ModelState) :
    upsertSeq sTy sVal tTy tVal (om :: rest) s =
      upsertSeq sTy sVal tTy tVal rest
        (upsertRelation om.1 sTy sVal tTy tVal om.2 false s).2 := rfl

/-- Running a same-key upsert sequence on a table that already stores the
key adds the sequence length to both counters and folds the supplied
timestamps into last_seen with max. -/
theorem upsertSeq_findByKey (sTy sVal tTy tVal : String)
    (obs : List (Nat × Metadata)) :
    ∀ (s : ModelState) (r : Relation),
      findByKey (sTy, sVal, tTy, tVal) s.table = some r →
      ∃ r2, findByKey (sTy, sVal, tTy, tVal)
          (upsertSeq sTy sVal tTy tVal obs s).table = some r2 ∧
        r2.strength = r.strength + obs.length ∧
        r2.connectionCount = r.connectionCount + obs.length ∧
        r2.lastSeen = (obs.map obsTs).foldl max r.lastSeen := by
  induction obs with
  | nil =>
    intro s r h
    exact ⟨r, by simpa [upsertSeq] using h, by simp, by simp, by simp⟩
  | cons om rest ih =>
    intro s r h
    have hstep : findByKey (sTy, sVal, tTy, tVal)
        ((upsertRelation om.1 sTy sVal tTy tVal om.2 false s).2).table =
        some (conflictUpdate om.1 om.2 r) := by
      simp [upsertRelation, findByKey_tableUpsert, h]
    obtain ⟨r2, h2, hs, hc, hl⟩ := ih _ _ hstep
    refine ⟨r2, ?_, ?_, ?_, ?_⟩
    · rw [upsertSeq_cons]; exact h2
    · rw [hs]; simp [conflictUpdate]; omega
    · rw [hc]; simp [conflictUpdate]; omega
    · rw [hl]
      have : (conflictUpdate om.1 om.2 r).lastSeen = max r.lastSeen (obsTs om) := by
        simp [conflictUpdate, obsTs, ite_gt_eq_max]
      rw [this]
      simp

/-- Running a nonempty same-key upsert sequence on a table without the key
leaves a row whose counters equal the sequence length and whose last_seen
is the maximum supplied timestamp. -/
theorem upsertSeq_fresh_key (sTy sVal tTy tVal : String)
    (obs : List (Nat × Metadata)) (s : ModelState)
    (h0 : findByKey (sTy, sVal, tTy, tVal) s.table = none) (hne : obs ≠ []) :
    ∃ r, findByKey (sTy, sVal, tTy, tVal)
        (upsertSeq sTy sVal tTy tVal obs s).table = some r ∧
      r.strength = obs.length ∧ r.connectionCount = obs.length ∧
      r.lastSeen = maxObs obs := by
  match obs, hne with
  | om :: rest, _ =>
    have hstep : findByKey (sTy, sVal, tTy, tVal)
        ((upsertRelation om.1 sTy sVal tTy tVal om.2 false s).2).table =
        some (newRow om.1 sTy sVal tTy tVal om.2) := by
      simp [upsertRelation, findByKey_tableUpsert, h0]
    obtain ⟨r2, h2, hs, hc, hl⟩ := upsertSeq_findByKey sTy sVal tTy tVal rest _ _ hstep
    refine ⟨r2, ?_, ?_, ?_, ?_⟩
    · rw [upsertSeq_cons]; exact h2
    · rw [hs]; simp [newRow]; omega
    · rw [hc]; simp [newRow]; omega
    · rw [hl]
      simp [newRow, maxObs, obsTs]

/-- The maximum supplied timestamp can only grow as the sequence is
extended. -/
theorem maxObs_append_le (p q : List (Nat × Metadata)) :
    maxObs p ≤ maxObs (p ++ q) := by
  simp only [maxObs, List.map_append, List.foldl_append]
  exact le_foldl_max _ _ _ (Nat.le_refl _)

/-- Claim C1: for every sequence of N upsertRelation calls with the same
composite key, the resulting row has strength and connectionCount equal
to N and last_seen equal to the maximum supplied observation timestamp;
and across the sequence last_seen never decreases (the row after any
nonempty prefix has last_seen at most that of the final row). -/
theorem upsertRelation_repeat_same_key (sTy sVal tTy tVal : String)
    (obs : List (Nat × Metadata)) (s : ModelState)
    (h0 : findByKey (sTy, sVal, tTy, tVal) s.table = none) (hne : obs ≠ []) :
    (∃ r, findByKey (sTy, sVal, tTy, tVal)
        (upsertSeq sTy sVal tTy tVal obs s).table = some r ∧
      r.strength = obs.length ∧ r.connectionCount = obs.length ∧
      r.lastSeen = maxObs obs) ∧
    (∀ p q, obs = p ++ q → p ≠ [] →
      ∃ r1 r2,
        findByKey (sTy, sVal, tTy, tVal)
          (upsertSeq sTy sVal tTy tVal p s).table = some r1 ∧
        findByKey (sTy, sVal, tTy, tVal)
          (upsertSeq sTy sVal tTy tVal obs s).table = some r2 ∧
        r1.lastSeen ≤ r2.lastSeen) := by
  refine ⟨upsertSeq_fresh_key sTy sVal tTy tVal obs s h0 hne, ?_⟩
  intro p q hpq hp
  obtain ⟨r1, hf1, _, _, hl1⟩ := upsertSeq_fresh_key sTy sVal tTy tVal p s h0 hp
  obtain ⟨r2, hf2, _, _, hl2⟩ := upsertSeq_fresh_key sTy sVal tTy tVal obs s h0 hne
  refine ⟨r1, r2, hf1, hf2, ?_⟩
  rw [hl1, hl2, hpq]
  exact maxObs_append_le p q

/-- Witness for claim C1: two upserts of the same key with supplied
timestamps 10 and 5 yield counters 2 and last_seen 10. -/
theorem upsertRelation_repeat_same_key_witness :
    (findByKey ("username", "alice", "command", "ls")
        (ModelState.mk [] []).table = none ∧
      [((1 : Nat), Metadata.mk none (some 10) ""),
        (2, Metadata.mk none (some 5) "")] ≠ []) ∧
    (∃ r, findByKey ("username", "alice", "command", "ls")
        (upsertSeq "username" "alice" "command" "ls"
          [(1, Metadata.mk none (some 10) ""), (2, Metadata.mk none (some 5) "")]
          (ModelState.mk [] [])).table = some r ∧
      r.strength = 2 ∧ r.connectionCount = 2 ∧ r.lastSeen = 10) := by
  refine ⟨⟨rfl, by decide⟩, ?_⟩
  have h := (upsertRelation_repeat_same_key "username" "alice" "command" "ls"
    [(1, Metadata.mk none (some 10) ""), (2, Metadata.mk none (some 5) "")]
    (ModelState.mk [] []) rfl (by decide)).1
  simpa [maxObs, obsTs, suppliedLastSeen] using h


/-- getD after tail shifts the index by one. -/
theorem tail_getD (l : List Bool) (i : Nat) :
    l.tail.getD i false = l.getD (i + 1) false := by
  cases l <;> simp [List.getD]

/-- A batch whose flags mark some row as failing aborts with an error. -/
theorem runBatch_error (now : Nat) (rels : List RelationInput) :
    ∀ (fails : List Bool) (tbl results : List Relation),
      (∃ i, i < rels.length ∧ fails.getD i false = true) →
      runBatch now rels fails tbl results = Except.error () := by
  induction rels with
  | nil => intro fails tbl results ⟨i, hi, _⟩; simp at hi
  | cons ri rest ih =>
    intro fails tbl results ⟨i, hi, hf⟩
    cases fails with
    | nil => simp [List.getD] at hf
    | cons b bs =>
      cases b with
      | true => simp [runBatch, clientUpsert, List.headD]
      | false =>
        cases i with
        | zero => simp [List.getD] at hf
        | succ j =>
          have hj : j < rest.length := by simpa using hi
          have hfj : bs.getD j false = true := by simpa [List.getD] using hf
          simpa [runBatch, clientUpsert, List.headD] using ih bs _ _ ⟨j, hj, hfj⟩

/-- A batch with no failing row succeeds and pushes one result row per
input row. -/
theorem runBatch_ok (now : Nat) (rels : List RelationInput) :
    ∀ (fails : List Bool) (tbl results : List Relation),
      (∀ i, i < rels.length → fails.getD i false = false) →
      ∃ res2 tbl2, runBatch now rels fails tbl results = Except.ok (res2, tbl2) ∧
        res2.length = results.length + rels.length := by
  induction rels with
  | nil => intro fails tbl results _; exact ⟨results, tbl, rfl, by simp⟩
  | cons ri rest ih =>
    intro fails tbl results hall
    have h0 : fails.headD false = false := by
      cases fails with
      | nil => rfl
      | cons b bs => simpa [List.getD, List.headD] using hall 0 (by simp)
    have hall2 : ∀ i, i < rest.length → fails.tail.getD i false = false := by
      intro i hi
      rw [tail_getD]
      exact hall (i + 1) (by simpa using Nat.succ_lt_succ hi)
    obtain ⟨res2, tbl2, hrun, hlen⟩ := ih fails.tail
      (tableUpsert now ri.sourceType ri.sourceValue ri.targetType ri.targetValue
        ri.metadata tbl).2
      (results ++ [(tableUpsert now ri.sourceType ri.sourceValue ri.targetType
        ri.targetValue ri.metadata tbl).1]) hall2
    refine ⟨res2, tbl2, ?_, ?_⟩
    · have h0' : fails.head?.getD false = false := by
        cases fails <;> simpa [List.headD] using h0
      simpa [runBatch, clientUpsert, h0'] using hrun
    · rw [hlen]; simp; omega

/-- Claim C2: batchUpsertRelations is all-or-nothing: if any row's
statement fails, the whole transaction is rolled back and the state (in
particular every row of the store) is exactly as before; on success it
returns one result row per input row whose upsert returned data (every
row, since each upsert statement returns its row). -/
theorem batchUpsertRelations_all_or_nothing (now : Nat)
    (rels : List RelationInput) (fails : List Bool) (s : ModelState) :
    ((∃ i, i < rels.length ∧ fails.getD i false = true) →
      batchUpsertRelations now rels fails s = (Except.error (), s)) ∧
    ((∀ i, i < rels.length → fails.getD i false = false) →
      ∃ results s2,
        batchUpsertRelations now rels fails s = (Except.ok results, s2) ∧
        results.length = rels.length) := by
  constructor
  · intro hex
    have hne : rels.length ≠ 0 := by
      obtain ⟨i, hi, _⟩ := hex
      omega
    simp [batchUpsertRelations, hne, runBatch_error now rels fails s.table [] hex]
  · intro hall
    by_cases hz : rels.length = 0
    · refine ⟨[], s, ?_, by simp [hz]⟩
      simp [batchUpsertRelations, hz]
    · obtain ⟨res2, tbl2, hrun, hlen⟩ := runBatch_ok now rels fails s.table [] hall
      refine ⟨res2, ModelState.mk tbl2
        ((collectTypes rels).foldl (fun c t => invalidateCache t c) s.cache),
        ?_, by simpa using hlen⟩
      simp [batchUpsertRelations, hz, hrun]

/-- Witness for claim C2: a two-row batch whose second statement fails
leaves the empty store empty and propagates the error. -/
theorem batchUpsertRelations_all_or_nothing_witness :
    ((0 : Nat) < 2 ∧ [false, true].getD 1 false = true) ∧
    (batchUpsertRelations 7
      [RelationInput.mk "u" "a" "c" "ls" (Metadata.mk none (some 3) ""),
       RelationInput.mk "u" "a" "c" "cd" (Metadata.mk none (some 4) "")]
      [false, true] (ModelState.mk [] []) =
      (Except.error (), ModelState.mk [] [])) := by
  refine ⟨⟨by decide, by decide⟩, ?_⟩
  exact (batchUpsertRelations_all_or_nothing 7
    [RelationInput.mk "u" "a" "c" "ls" (Metadata.mk none (some 3) ""),
     RelationInput.mk "u" "a" "c" "cd" (Metadata.mk none (some 4) "")]
    [false, true] (ModelState.mk [] [])).1 ⟨1, by decide, by decide⟩


/-- Counting two filters separately equals counting their union plus
their intersection: elements matching both are counted twice. -/
theorem length_filter_or_and {α : Type} (l : List α) (p q : α → Bool) :
    (l.filter p).length + (l.filter q).length =
      (l.filter fun x => p x || q x).length +
        (l.filter fun x => p x && q x).length := by
  induction l with
  | nil => simp
  | cons x xs ih =>
    by_cases hp : p x <;> by_cases hq : q x <;> simp [hp, hq] <;> omega

/-- Claim C3: for distinct non-falsy old and new values, updateFieldValue
returns the source-side match count plus the target-side match count,
which double-counts every row matching both filters: the total equals
the number of rows matching either filter plus the number matching
both. -/
theorem updateFieldValue_count (now : Nat) (ft ov nv : String) (s : ModelState)
    (hov : ov ≠ "") (hnv : nv ≠ "") (hne : ov ≠ nv) :
    (updateFieldValue now ft ov nv s).1 =
      (s.table.filter (srcMatch ft ov)).length +
        (s.table.filter (tgtMatch ft ov)).length ∧
    (updateFieldValue now ft ov nv s).1 =
      (s.table.filter fun r => srcMatch ft ov r || tgtMatch ft ov r).length +
        (s.table.filter fun r => srcMatch ft ov r && tgtMatch ft ov r).length := by
  have hguard : ¬(ov = "" ∨ nv = "" ∨ ov = nv) := by tauto
  have h1 : (updateFieldValue now ft ov nv s).1 =
      (s.table.filter (srcMatch ft ov)).length +
        (s.table.filter (tgtMatch ft ov)).length := by
    simp [updateFieldValue, hguard]
  exact ⟨h1, by rw [h1, length_filter_or_and]⟩

/-- Witness for claim C3: renaming alice to bob on a single self-loop
edge (alice on both ends) reports 2 affected rows. -/
theorem updateFieldValue_count_witness :
    (("alice" : String) ≠ "" ∧ ("bob" : String) ≠ "" ∧ ("alice" : String) ≠ "bob") ∧
    ((updateFieldValue 50 "user" "alice" "bob"
        (ModelState.mk
          [Relation.mk "user" "alice" "user" "alice" (Metadata.mk none none "m") 0 5 1 1]
          [])).1 = 2) := by
  refine ⟨⟨by decide, by decide, by decide⟩, ?_⟩
  have h := (updateFieldValue_count 50 "user" "alice" "bob"
    (ModelState.mk
      [Relation.mk "user" "alice" "user" "alice" (Metadata.mk none none "m") 0 5 1 1]
      []) (by decide) (by decide) (by decide)).1
  rw [h]
  decide

/-- The rename-conflict arm keeps the composite key of the stored row. -/
theorem key_renameConflict (ins old : Relation) :
    (renameConflict ins old).key = old.key := rfl

/-- After a rename re-insert, the row found under the inserted key is the
inserted row when the key was absent, else the merge of the stored
row. -/
theorem findByKey_renameInsert (ins : Relation) (tbl : List Relation) :
    findByKey ins.key (renameInsert ins tbl) =
      some (match findByKey ins.key tbl with
            | none => ins
            | some old => renameConflict ins old) := by
  induction tbl with
  | nil => simp [findByKey, renameInsert]
  | cons row rest ih =>
    by_cases h : row.key = ins.key
    · simp [findByKey, renameInsert, h, List.find?, key_renameConflict]
    · simp only [renameInsert, if_neg h, findByKey, List.find?] at ih ⊢
      simp [h, ih]

/-- Claim C4: during updateFieldValue, a re-inserted renamed row that
collides on the composite key with a surviving row is merged into it:
strength becomes the maximum of the two strengths (not the sum),
connectionCount is incremented by 1, lastSeen is set to the current
time, and metadata is replaced by the re-inserted row's metadata (the
surviving row's firstSeen is kept). -/
theorem updateFieldValue_collision_merge (now : Nat) (ft ov nv : String)
    (s : ModelState) (m w : Relation)
    (hov : ov ≠ "") (hnv : nv ≠ "") (hne : ov ≠ nv)
    (hsrc : s.table.filter (srcMatch ft ov) = [m])
    (htgt : s.table.filter (tgtMatch ft ov) = [])
    (hw : findByKey (m.sourceType, nv, m.targetType, m.targetValue)
        (deleteMatching ft ov s.table) = some w) :
    ∃ r, findByKey (m.sourceType, nv, m.targetType, m.targetValue)
        (updateFieldValue now ft ov nv s).2.table = some r ∧
      r.strength = max w.strength m.strength ∧
      r.connectionCount = w.connectionCount + 1 ∧
      r.lastSeen = now ∧
      r.metadata = m.metadata ∧
      r.firstSeen = w.firstSeen := by
  have hguard : ¬(ov = "" ∨ nv = "" ∨ ov = nv) := by tauto
  have hkey : (renamedFromSource now nv m).key =
      (m.sourceType, nv, m.targetType, m.targetValue) := rfl
  refine ⟨renameConflict (renamedFromSource now nv m) w, ?_, ?_, ?_, ?_, ?_, ?_⟩
  · simp only [updateFieldValue, if_neg hguard, hsrc, htgt,
      List.foldl_cons, List.foldl_nil]
    rw [← hkey] at hw ⊢
    rw [findByKey_renameInsert, hw]
  · simp [renameConflict, renamedFromSource]
  · simp [renameConflict]
  · simp [renameConflict, renamedFromSource]
  · simp [renameConflict, renamedFromSource]
  · simp [renameConflict]

/-- Witness for claim C4: renaming alice to bob collides with the
existing (user, bob, cmd, ls) row and merges counters as specified. -/
theorem updateFieldValue_collision_merge_witness :
    (("alice" : String) ≠ "" ∧ ("bob" : String) ≠ "" ∧
      ("alice" : String) ≠ "bob" ∧
      (ModelState.mk
        [Relation.mk "user" "alice" "cmd" "ls" (Metadata.mk none none "m") 1 2 5 3,
         Relation.mk "user" "bob" "cmd" "ls" (Metadata.mk none none "w") 4 5 2 7]
        []).table.filter (srcMatch "user" "alice") =
        [Relation.mk "user" "alice" "cmd" "ls" (Metadata.mk none none "m") 1 2 5 3] ∧
      (ModelState.mk
        [Relation.mk "user" "alice" "cmd" "ls" (Metadata.mk none none "m") 1 2 5 3,
         Relation.mk "user" "bob" "cmd" "ls" (Metadata.mk none none "w") 4 5 2 7]
        []).table.filter (tgtMatch "user" "alice") = []) ∧
    (∃ r, findByKey ("user", "bob", "cmd", "ls")
        (updateFieldValue 50 "user" "alice" "bob"
          (ModelState.mk
            [Relation.mk "user" "alice" "cmd" "ls" (Metadata.mk none none "m") 1 2 5 3,
             Relation.mk "user" "bob" "cmd" "ls" (Metadata.mk none none "w") 4 5 2 7]
            [])).2.table = some r ∧
      r.strength = max 2 5 ∧
      r.connectionCount = 7 + 1 ∧
      r.lastSeen = 50 ∧
      r.metadata = Metadata.mk none none "m" ∧
      r.firstSeen = 4) := by
  refine ⟨⟨by decide, by decide, by decide, by decide, by decide⟩, ?_⟩
  exact updateFieldValue_collision_merge 50 "user" "alice" "bob"
    (ModelState.mk
      [Relation.mk "user" "alice" "cmd" "ls" (Metadata.mk none none "m") 1 2 5 3,
       Relation.mk "user" "bob" "cmd" "ls" (Metadata.mk none none "w") 4 5 2 7]
      [])
    (Relation.mk "user" "alice" "cmd" "ls" (Metadata.mk none none "m") 1 2 5 3)
    (Relation.mk "user" "bob" "cmd" "ls" (Metadata.mk none none "w") 4 5 2 7)
    (by decide) (by decide) (by decide) (by decide) (by decide) (by decide)


/-- Claim C7: updateFieldValue with a falsy old value, a falsy new value
(the empty string in this model) or equal values returns 0 and performs
no writes: the state, table and cache included, is returned unchanged. -/
theorem updateFieldValue_noop (now : Nat) (ft ov nv : String) (s : ModelState)
    (h : ov = "" ∨ nv = "" ∨ ov = nv) :
    updateFieldValue now ft ov nv s = (0, s) := by
  simp [updateFieldValue, h]

/-- Witness for claim C7: renaming alice to alice returns 0 and leaves a
nonempty table and cache untouched. -/
theorem updateFieldValue_noop_witness :
    (("alice" : String) = "" ∨ ("alice" : String) = "" ∨
      ("alice" : String) = "alice") ∧
    updateFieldValue 9 "username" "alice" "alice"
      (ModelState.mk
        [Relation.mk "username" "alice" "command" "ls" (Metadata.mk none none "") 0 1 1 1]
        [("username_10", CacheEntry.mk [] 0)]) =
      (0, ModelState.mk
        [Relation.mk "username" "alice" "command" "ls" (Metadata.mk none none "") 0 1 1 1]
        [("username_10", CacheEntry.mk [] 0)]) :=
  ⟨Or.inr (Or.inr rfl),
    updateFieldValue_noop 9 "username" "alice" "alice" _ (Or.inr (Or.inr rfl))⟩

/-- A filter and its complement partition the list. -/
theorem length_filter_add_not {α : Type} (l : List α) (p : α → Bool) :
    (l.filter p).length + (l.filter fun x => !(p x)).length = l.length := by
  induction l with
  | nil => simp
  | cons x xs ih => by_cases h : p x <;> simp [h] <;> omega

/-- Claim C6: deleteOldRelations keeps exactly the rows whose last_seen is
not older than now minus maxAgeDays days and deletes no others, returns
the number of deleted rows, and clears the entire cache. -/
theorem deleteOldRelations_spec (now days : Nat) (s : ModelState) :
    (∀ r, r ∈ (deleteOldRelations now days s).2.table ↔
      (r ∈ s.table ∧ ¬ r.lastSeen < now - days * DAY_MS)) ∧
    (deleteOldRelations now days s).1 =
      (s.table.filter fun r => r.lastSeen < now - days * DAY_MS).length ∧
    (deleteOldRelations now days s).2.cache = [] ∧
    (deleteOldRelations now days s).1 +
      (deleteOldRelations now days s).2.table.length = s.table.length := by
  refine ⟨?_, rfl, rfl, ?_⟩
  · intro r
    simp [deleteOldRelations, List.mem_filter]
  · exact length_filter_add_not s.table _

/-- Invalidating a type removes every cache key starting with it. -/
theorem cacheLookup_invalidate_self (k pfx : String) (h : jsStartsWith k pfx = true) :
    ∀ c : Cache, cacheLookup k (invalidateCache pfx c) = none := by
  intro c
  induction c with
  | nil => rfl
  | cons kv rest ih =>
    by_cases hkv : jsStartsWith kv.1 pfx = true
    · simpa [invalidateCache, List.filter_cons, hkv] using ih
    · have hne : kv.1 ≠ k := fun he => hkv (by rw [he]; exact h)
      simp only [invalidateCache, List.filter_cons] at ih ⊢
      simp [hkv, cacheLookup, hne, ih]

/-- Invalidating a type leaves lookups of keys not starting with it
unchanged. -/
theorem cacheLookup_invalidate_other (k pfx : String) (h : jsStartsWith k pfx = false) :
    ∀ c : Cache, cacheLookup k (invalidateCache pfx c) = cacheLookup k c := by
  intro c
  induction c with
  | nil => rfl
  | cons kv rest ih =>
    by_cases hk : kv.1 = k
    · have hkv : jsStartsWith kv.1 pfx = false := by rw [hk]; exact h
      simp only [invalidateCache, List.filter_cons] at ih ⊢
      simp [hkv, cacheLookup, hk, h]
    · by_cases hkv : jsStartsWith kv.1 pfx = true
      · simp only [invalidateCache, List.filter_cons] at ih ⊢
        simp [hkv, cacheLookup, hk, ih]
      · simp only [invalidateCache, List.filter_cons] at ih ⊢
        simp [hkv, cacheLookup, hk, ih]

/-- Claim C9: upsertRelation invalidates the cache entries of both
endpoint types before the storage write, and the invalidation is not
undone on failure: when the storage query throws, the error propagates,
the table is unchanged, every cache key starting with either endpoint
type is gone, and all other cache entries are untouched. -/
theorem upsertRelation_fail_frame (now : Nat) (sTy sVal tTy tVal : String)
    (md : Metadata) (s : ModelState) :
    (upsertRelation now sTy sVal tTy tVal md true s).1 = Except.error () ∧
    (upsertRelation now sTy sVal tTy tVal md true s).2.table = s.table ∧
    (∀ k, (jsStartsWith k sTy = true ∨ jsStartsWith k tTy = true) →
      cacheLookup k (upsertRelation now sTy sVal tTy tVal md true s).2.cache = none) ∧
    (∀ k, jsStartsWith k sTy = false → jsStartsWith k tTy = false →
      cacheLookup k (upsertRelation now sTy sVal tTy tVal md true s).2.cache =
        cacheLookup k s.cache) := by
  have hcache : (upsertRelation now sTy sVal tTy tVal md true s).2.cache =
      invalidateCache tTy (invalidateCache sTy s.cache) := rfl
  refine ⟨rfl, rfl, ?_, ?_⟩
  · intro k hk
    rw [hcache]
    by_cases htt : jsStartsWith k tTy = true
    · exact cacheLookup_invalidate_self k tTy htt _
    · have htt' : jsStartsWith k tTy = false := by
        cases hx : jsStartsWith k tTy
        · rfl
        · exact absurd hx htt
      rcases hk with h | h
      · rw [cacheLookup_invalidate_other k tTy htt']
        exact cacheLookup_invalidate_self k sTy h _
      · exact absurd h htt
  · intro k hs ht
    rw [hcache, cacheLookup_invalidate_other k tTy ht,
      cacheLookup_invalidate_other k sTy hs]

/-- Witness for claim C9: a failing upsert on (username, command) removes
the username-prefixed cache entry, keeps the ip-prefixed one, changes no
table row and propagates the error. -/
theorem upsertRelation_fail_frame_witness :
    ((jsStartsWith "username_10" "username" = true ∨
        jsStartsWith "username_10" "command" = true) ∧
      jsStartsWith "ip_5" "username" = false ∧
      jsStartsWith "ip_5" "command" = false) ∧
    ((upsertRelation 3 "username" "alice" "command" "ls"
        (Metadata.mk none none "") true
        (ModelState.mk []
          [("username_10", CacheEntry.mk [] 0), ("ip_5", CacheEntry.mk [] 0)])).1 =
      Except.error () ∧
      (upsertRelation 3 "username" "alice" "command" "ls"
        (Metadata.mk none none "") true
        (ModelState.mk []
          [("username_10", CacheEntry.mk [] 0), ("ip_5", CacheEntry.mk [] 0)])).2.table = [] ∧
      cacheLookup "username_10"
        (upsertRelation 3 "username" "alice" "command" "ls"
          (Metadata.mk none none "") true
          (ModelState.mk []
            [("username_10", CacheEntry.mk [] 0), ("ip_5", CacheEntry.mk [] 0)])).2.cache = none ∧
      cacheLookup "ip_5"
        (upsertRelation 3 "username" "alice" "command" "ls"
          (Metadata.mk none none "") true
          (ModelState.mk []
            [("username_10", CacheEntry.mk [] 0), ("ip_5", CacheEntry.mk [] 0)])).2.cache =
        cacheLookup "ip_5"
          [("username_10", CacheEntry.mk [] 0), ("ip_5", CacheEntry.mk [] 0)]) := by
  refine ⟨⟨Or.inl (by decide), by decide, by decide⟩, ?_, ?_, ?_, ?_⟩
  · exact (upsertRelation_fail_frame 3 "username" "alice" "command" "ls"
      (Metadata.mk none none "") _).1
  · exact (upsertRelation_fail_frame 3 "username" "alice" "command" "ls"
      (Metadata.mk none none "") _).2.1
  · exact (upsertRelation_fail_frame 3 "username" "alice" "command" "ls"
      (Metadata.mk none none "") _).2.2.1 "username_10" (Or.inl (by decide))
  · exact (upsertRelation_fail_frame 3 "username" "alice" "command" "ls"
      (Metadata.mk none none "") _).2.2.2 "ip_5" (by decide) (by decide)


/-- A list is a prefix of itself followed by anything. -/
theorem isPrefixOf_append_self (l t : List Char) :
    l.isPrefixOf (l ++ t) = true := by
  induction l with
  | nil => simp [List.isPrefixOf]
  | cons x xs ih => simp [List.isPrefixOf, ih]

/-- A string starts with itself followed by anything. -/
theorem jsStartsWith_append (t x : String) :
    jsStartsWith (t ++ x) t = true := by
  rw [jsStartsWith, String.data_append]
  exact isPrefixOf_append_self t.data x.data

/-- The getRelations cache key starts with the relation type. -/
theorem jsStartsWith_cacheKey (t : String) (l : Nat) :
    jsStartsWith (cacheKey t l) t = true := by
  rw [cacheKey, String.append_assoc]
  exact jsStartsWith_append t ("_" ++ toString l)

/-- Looking up a key just stored returns the stored entry. -/
theorem cacheLookup_cacheSet_self (key : String) (e : CacheEntry) :
    ∀ c : Cache, cacheLookup key (cacheSet key e c) = some e := by
  intro c
  induction c with
  | nil => simp [cacheSet, cacheLookup]
  | cons kv rest ih =>
    by_cases h : kv.1 = key
    · simp [cacheSet, cacheLookup, h]
    · simp [cacheSet, cacheLookup, h, ih]

/-- Claim C5: two getRelations calls on the same type and limit with no
intervening invalidating write, the second within the TTL window of the
entry the first call stored, return the identical cached object and the
second call changes nothing (no recompute, no cache write); an upsert
touching the type removes every cache key prefixed by the type, so a
getRelations call after it takes the compute path: it returns data
freshly computed from the post-upsert table and stores it. -/
theorem getRelations_cache_spec (type : String) (limit : Nat) :
    (∀ (s : ModelState) (t1 t2 : Nat),
      cacheLookup (cacheKey type limit) s.cache = none →
      t2 - t1 < RELATIONS_CACHE_TTL →
      getRelations t2 type limit (getRelations t1 type limit s).2 =
        getRelations t1 type limit s) ∧
    (∀ (s : ModelState) (nowU : Nat) (sTy sVal tTy tVal : String)
        (md : Metadata) (k : String),
      (sTy = type ∨ tTy = type) → jsStartsWith k type = true →
      cacheLookup k (upsertRelation nowU sTy sVal tTy tVal md false s).2.cache =
        none) ∧
    (∀ (s : ModelState) (nowU t2 : Nat) (sTy sVal tTy tVal : String)
        (md : Metadata),
      (sTy = type ∨ tTy = type) →
      getRelations t2 type limit
          (upsertRelation nowU sTy sVal tTy tVal md false s).2 =
        (formatRelations (rankedQuery type limit
            (upsertRelation nowU sTy sVal tTy tVal md false s).2.table),
         { table := (upsertRelation nowU sTy sVal tTy tVal md false s).2.table,
           cache := cacheData t2 (cacheKey type limit)
             (formatRelations (rankedQuery type limit
               (upsertRelation nowU sTy sVal tTy tVal md false s).2.table))
             (upsertRelation nowU sTy sVal tTy tVal md false s).2.cache })) := by
  have hinv : ∀ (s : ModelState) (nowU : Nat) (sTy sVal tTy tVal : String)
      (md : Metadata) (k : String),
      (sTy = type ∨ tTy = type) → jsStartsWith k type = true →
      cacheLookup k (upsertRelation nowU sTy sVal tTy tVal md false s).2.cache =
        none := by
    intro s nowU sTy sVal tTy tVal md k hty hk
    have hc : (upsertRelation nowU sTy sVal tTy tVal md false s).2.cache =
        invalidateCache tTy (invalidateCache sTy s.cache) := rfl
    rw [hc]
    by_cases htt : jsStartsWith k tTy = true
    · exact cacheLookup_invalidate_self k tTy htt _
    · have htt' : jsStartsWith k tTy = false := by
        cases hx : jsStartsWith k tTy
        · rfl
        · exact absurd hx htt
      rcases hty with h | h
      · rw [cacheLookup_invalidate_other k tTy htt']
        exact cacheLookup_invalidate_self k sTy (by rw [h]; exact hk) _
      · exact absurd (by rw [h]; exact hk) htt
  refine ⟨?_, hinv, ?_⟩
  · intro s t1 t2 hnone hwin
    have hmiss : getCachedData t1 (cacheKey type limit) s.cache = none := by
      simp [getCachedData, hnone]
    have h1 : getRelations t1 type limit s =
        (formatRelations (rankedQuery type limit s.table),
         ModelState.mk s.table
           (cacheData t1 (cacheKey type limit)
             (formatRelations (rankedQuery type limit s.table)) s.cache)) := by
      rw [getRelations, hmiss]
    rw [h1]
    have hlook : cacheLookup (cacheKey type limit)
        (cacheData t1 (cacheKey type limit)
          (formatRelations (rankedQuery type limit s.table)) s.cache) =
        some { data := formatRelations (rankedQuery type limit s.table),
               timestamp := t1 } :=
      cacheLookup_cacheSet_self _ _ _
    rw [getRelations]
    simp [getCachedData, hlook, hwin]
  · intro s nowU t2 sTy sVal tTy tVal md hty
    have hmiss : getCachedData t2 (cacheKey type limit)
        (upsertRelation nowU sTy sVal tTy tVal md false s).2.cache = none := by
      rw [getCachedData, hinv s nowU sTy sVal tTy tVal md (cacheKey type limit) hty
        (jsStartsWith_cacheKey type limit)]
    rw [getRelations, hmiss]

/-- Witness for claim C5: on an empty store, a second getRelations 10ms
after the first returns the identical result and state; after an upsert
of an ip edge, the ip_2 cache key is gone and getRelations recomputes. -/
theorem getRelations_cache_spec_witness :
    (cacheLookup (cacheKey "ip" 2) (ModelState.mk [] []).cache = none ∧
      (110 : Nat) - 100 < RELATIONS_CACHE_TTL ∧
      (("ip" : String) = "ip" ∨ ("command" : String) = "ip") ∧
      jsStartsWith "ip_2" "ip" = true) ∧
    (getRelations 110 "ip" 2 (getRelations 100 "ip" 2 (ModelState.mk [] [])).2 =
      getRelations 100 "ip" 2 (ModelState.mk [] [])) ∧
    (cacheLookup "ip_2"
      (upsertRelation 7 "ip" "1.2.3.4" "command" "ls" (Metadata.mk none none "")
        false (ModelState.mk [] [])).2.cache = none) ∧
    (getRelations 110 "ip" 2
        (upsertRelation 7 "ip" "1.2.3.4" "command" "ls" (Metadata.mk none none "")
          false (ModelState.mk [] [])).2 =
      (formatRelations (rankedQuery "ip" 2
          (upsertRelation 7 "ip" "1.2.3.4" "command" "ls" (Metadata.mk none none "")
            false (ModelState.mk [] [])).2.table),
       { table := (upsertRelation 7 "ip" "1.2.3.4" "command" "ls"
            (Metadata.mk none none "") false (ModelState.mk [] [])).2.table,
         cache := cacheData 110 (cacheKey "ip" 2)
           (formatRelations (rankedQuery "ip" 2
             (upsertRelation 7 "ip" "1.2.3.4" "command" "ls"
               (Metadata.mk none none "") false (ModelState.mk [] [])).2.table))
           (upsertRelation 7 "ip" "1.2.3.4" "command" "ls"
             (Metadata.mk none none "") false (ModelState.mk [] [])).2.cache })) := by
  refine ⟨⟨rfl, by decide, Or.inl rfl, by decide⟩, ?_, ?_, ?_⟩
  · exact (getRelations_cache_spec "ip" 2).1 (ModelState.mk [] []) 100 110 rfl (by decide)
  · exact (getRelations_cache_spec "ip" 2).2.1 (ModelState.mk [] []) 7 "ip" "1.2.3.4"
      "command" "ls" (Metadata.mk none none "") "ip_2" (Or.inl rfl) (by decide)
  · exact (getRelations_cache_spec "ip" 2).2.2 (ModelState.mk [] []) 7 110 "ip"
      "1.2.3.4" "command" "ls" (Metadata.mk none none "") (Or.inl rfl)

/-- Looking up a path just written returns the written file. -/
theorem fsLookup_fsWrite_self (p : String) (f : LogFile) :
    ∀ fs, fsLookup p (fsWrite p f fs) = some f := by
  intro fs
  induction fs with
  | nil => simp [fsWrite, fsLookup]
  | cons qg rest ih =>
    by_cases h : qg.1 = p
    · simp [fsWrite, fsLookup, h]
    · simp [fsWrite, fsLookup, h, ih]

/-- Claim C8: for a managed log file whose content fails to parse,
checkLogFile writes the original raw bytes to a sibling backup path
stamped with the failure time, appends a corruption event, and returns
true (needs rotation); the model function is total, mirroring that the
source catches the parse error rather than propagating it. -/
theorem checkLogFile_corrupted (now : Nat) (dataDir : String) (maxL : Nat)
    (fileName raw msg : String) (st : RotationState)
    (h : fsLookup (logFilePath dataDir fileName) st.fs =
      some (LogFile.file raw (ParseOutcome.parseError msg))) :
    (checkLogFile now dataDir maxL fileName st).1 = true ∧
    fsLookup (corruptedBackupPath (logFilePath dataDir fileName) now)
        (checkLogFile now dataDir maxL fileName st).2.fs =
      some (LogFile.file raw (ParseOutcome.parseError msg)) ∧
    (checkLogFile now dataDir maxL fileName st).2.events =
      st.events ++ [SysEvent.mk "log_file_corrupted" fileName
        (corruptedBackupPath (logFilePath dataDir fileName) now)] := by
  refine ⟨?_, ?_, ?_⟩ <;> simp [checkLogFile, h, fsLookup_fsWrite_self]

/-- Witness for claim C8: a corrupt audit_logs.json is backed up under
data/audit_logs.json.corrupted.42 with its raw bytes, an event is
emitted, and rotation is reported. -/
theorem checkLogFile_corrupted_witness :
    (fsLookup (logFilePath "data" "audit_logs.json")
      (RotationState.mk
        [("data/audit_logs.json", LogFile.file "not json" (ParseOutcome.parseError "bad"))]
        []).fs =
      some (LogFile.file "not json" (ParseOutcome.parseError "bad"))) ∧
    ((checkLogFile 42 "data" 10000 "audit_logs.json"
        (RotationState.mk
          [("data/audit_logs.json", LogFile.file "not json" (ParseOutcome.parseError "bad"))]
          [])).1 = true ∧
      fsLookup (corruptedBackupPath (logFilePath "data" "audit_logs.json") 42)
          (checkLogFile 42 "data" 10000 "audit_logs.json"
            (RotationState.mk
              [("data/audit_logs.json", LogFile.file "not json" (ParseOutcome.parseError "bad"))]
              [])).2.fs =
        some (LogFile.file "not json" (ParseOutcome.parseError "bad")) ∧
      (checkLogFile 42 "data" 10000 "audit_logs.json"
        (RotationState.mk
          [("data/audit_logs.json", LogFile.file "not json" (ParseOutcome.parseError "bad"))]
          [])).2.events =
        [] ++ [SysEvent.mk "log_file_corrupted" "audit_logs.json"
          (corruptedBackupPath (logFilePath "data" "audit_logs.json") 42)]) := by
  refine ⟨by decide, ?_⟩
  exact checkLogFile_corrupted 42 "data" 10000 "audit_logs.json" "not json" "bad"
    (RotationState.mk
      [("data/audit_logs.json", LogFile.file "not json" (ParseOutcome.parseError "bad"))]
      []) (by decide)

/-- Counterexample for claim C10 as stated: a readable file holding a
valid two-entry list reaching the maxLogsPerFile threshold makes
checkLogFile report rotation-needed although no parse-level problem
(parse error or non-list content) is present. -/
theorem checkLogFile_full_array_rotation :
    (checkLogFile 0 "data" 2 "audit_logs.json"
      (RotationState.mk
        [("data/audit_logs.json", LogFile.file "[1,2]" (ParseOutcome.array 2))]
        [])).1 = true ∧
    isParseProblem (ParseOutcome.array 2) = false := by decide

/-- Claim C10 (amended): checkLogFile never propagates a file-access or
read error: for every file that is missing or unreadable it returns
false and changes nothing (the model is total, mirroring the source's
catch-all), so rotation-needed can only be reported for an existing
readable file, and then only for a parse failure, non-list content, or
an entry count reaching maxLogsPerFile. -/
theorem checkLogFile_no_access_error (now : Nat) (dataDir : String) (maxL : Nat)
    (fileName : String) (st : RotationState) :
    ((fsLookup (logFilePath dataDir fileName) st.fs = none ∨
      fsLookup (logFilePath dataDir fileName) st.fs = some LogFile.unreadable) →
      checkLogFile now dataDir maxL fileName st = (false, st)) ∧
    ((checkLogFile now dataDir maxL fileName st).1 = true →
      ∃ raw parsed,
        fsLookup (logFilePath dataDir fileName) st.fs =
          some (LogFile.file raw parsed) ∧
        (isParseProblem parsed = true ∨
          ∃ n, parsed = ParseOutcome.array n ∧ maxL ≤ n)) := by
  constructor
  · rintro (h | h) <;> simp [checkLogFile, h]
  · intro h
    rcases hx : fsLookup (logFilePath dataDir fileName) st.fs with _ | f
    · simp [checkLogFile, hx] at h
    · cases f with
      | unreadable => simp [checkLogFile, hx] at h
      | file raw parsed =>
        refine ⟨raw, parsed, rfl, ?_⟩
        cases parsed with
        | parseError msg => exact Or.inl rfl
        | nonArray => exact Or.inl rfl
        | array n =>
          right
          refine ⟨n, rfl, ?_⟩
          simp [checkLogFile, hx] at h
          exact h

/-- Witness for claim C10: a missing file yields false with the state
unchanged. -/
theorem checkLogFile_no_access_error_witness :
    (fsLookup (logFilePath "data" "missing.json") (RotationState.mk [] []).fs =
        none ∨
      fsLookup (logFilePath "data" "missing.json") (RotationState.mk [] []).fs =
        some LogFile.unreadable) ∧
    checkLogFile 5 "data" 10000 "missing.json" (RotationState.mk [] []) =
      (false, RotationState.mk [] []) :=
  ⟨Or.inl rfl,
    (checkLogFile_no_access_error 5 "data" 10000 "missing.json"
      (RotationState.mk [] [])).1 (Or.inl rfl)⟩

end Clio
